import Mathlib

/-!
Verification of the markdown linter of `shebangMarkdownIDE`
(`src/shebangMarkdownIDE/app.py`, method `_lint_markdown`).

The linter is embedded shallowly: Python strings become `List Char`,
`str.split`, `str.strip`, `str.lstrip`, `str.startswith` and the two
`re.finditer` scans become the explicit Lean functions below, and the
two passes of `_lint_markdown` become `pass1` and `pass2`.  The stored
per-editor report (`self.lint_issues[editor_id] = issues`) is modelled
by `storeAfterLint`.
-/

set_option autoImplicit false

namespace ShebangMarkdownIDE

/-- A line of text, as a list of characters. -/
abbrev Line := List Char

/-- Severity of a lint finding: the `'type'` field of the Python issue dict. -/
inductive Severity where
  | warning
  | error
deriving DecidableEq, Repr

/-- One lint finding: the Python dict `{'line': …, 'type': …, 'message': …}`. -/
structure LintIssue where
  line : Nat
  type : Severity
  message : String
deriving DecidableEq, Repr

/-- Python whitespace for `str.strip()` (ASCII subset; no other whitespace
occurs in the linter's inputs after splitting on newlines). -/
def isPySpace (c : Char) : Bool :=
  c = ' ' || c = '\t' || c = '\n' || c = '\r' || c = '\x0b' || c = '\x0c'

/-- Python `s.strip()`: drop whitespace from both ends. -/
def pyStrip (l : Line) : Line :=
  ((l.dropWhile isPySpace).reverse.dropWhile isPySpace).reverse

/-- Python `s.startswith(p)`. -/
def startsWithSeq : List Char → List Char → Bool
  | [], _ => true
  | _ :: _, [] => false
  | p :: ps, c :: cs => p = c && startsWithSeq ps cs

/-- The backtick character. -/
def backtick : Char := Char.ofNat 96

/-- Auxiliary for `splitLines`: accumulates the current line reversed. -/
def splitLinesAux : List Char → Line → List Line
  | [], acc => [acc.reverse]
  | c :: cs, acc =>
    if c = '\n' then acc.reverse :: splitLinesAux cs []
    else splitLinesAux cs (c :: acc)

/-- Python `text.split('\n')`: always returns at least one (possibly empty)
line; a trailing newline yields a trailing empty line. -/
def splitLines (text : List Char) : List Line :=
  splitLinesAux text []

/-- A match of the link regex `\[([^\]]+)\]\(([^)]+)\)`:
`g0` is the whole match (`group(0)`), `txt` the bracket part (`group(1)`),
`url` the parenthesis part (`group(2)`). -/
structure LinkMatch where
  g0 : List Char
  txt : List Char
  url : List Char
deriving DecidableEq, Repr

/-- Try to match the link regex `\[([^\]]+)\]\(([^)]+)\)` at the head of
`s`.  Both character classes exclude the closing delimiter, so greedy
matching is deterministic: `[^\]]+` is the maximal nonempty run of
non-`]` characters, which must then be followed by `](`, and `[^)]+` the
maximal nonempty run of non-`)` characters, followed by `)`.  Returns the
match groups and the remaining input after the match. -/
def linkMatchAt (s : List Char) : Option (LinkMatch × List Char) :=
  match s with
  | '[' :: s1 =>
    let txt := s1.takeWhile (fun c => !(c = ']'))
    if txt.isEmpty then none
    else
      match s1.dropWhile (fun c => !(c = ']')) with
      | ']' :: '(' :: s3 =>
        let url := s3.takeWhile (fun c => !(c = ')'))
        if url.isEmpty then none
        else
          match s3.dropWhile (fun c => !(c = ')')) with
          | ')' :: rest =>
            some (⟨'[' :: txt ++ ']' :: '(' :: url ++ [')'], txt, url⟩, rest)
          | _ => none
      | _ => none
  | _ => none

/-- On a successful match, the remaining input is a suffix of the tail of
the input: the matcher only peels characters off the front. -/
theorem linkMatchAt_rest_suffix (c : Char) (cs : List Char) (m : LinkMatch)
    (rest : List Char) (h : linkMatchAt (c :: cs) = some (m, rest)) :
    rest <:+ cs := by
  unfold linkMatchAt at h
  split at h
  · dsimp only at h
    split at h
    · exact absurd h (by simp)
    · split at h
      · split at h
        · exact absurd h (by simp)
        · split at h
          · rename_i s1 hpat htxt x1 s3 heq hurl x2 rest2 heq2
            have hr : rest2 = rest := by
              simp only [Option.some.injEq, Prod.mk.injEq] at h
              exact h.2
            subst hr
            injection hpat with hc hcs
            subst hcs
            have h1 : rest2 <:+ s3 := by
              have : ')' :: rest2 <:+ s3 := heq2 ▸ List.dropWhile_suffix _
              exact List.IsSuffix.trans (List.suffix_cons ')' rest2) this
            have h2 : s3 <:+ cs := by
              have h3 : ']' :: '(' :: s3 <:+ cs := heq ▸ List.dropWhile_suffix _
              exact List.IsSuffix.trans
                (List.IsSuffix.trans (List.suffix_cons '(' s3)
                  (List.suffix_cons ']' ('(' :: s3))) h3
            exact List.IsSuffix.trans h1 h2
          · exact absurd h (by simp)
      · exact absurd h (by simp)
  · exact absurd h (by simp)

/-- Python `re.finditer(link_pattern, line)`: non-overlapping matches,
scanning left to right.  After a match the scan resumes right after the
matched text; `skip` counts how many characters of the current match still
extend into the tail and must be passed over before matching again. -/
def findLinksFrom : List Char → Nat → List LinkMatch
  | [], _ => []
  | _ :: cs, skip + 1 => findLinksFrom cs skip
  | c :: cs, 0 =>
    match linkMatchAt (c :: cs) with
    | some (m, rest) => m :: findLinksFrom cs (cs.length - rest.length)
    | none => findLinksFrom cs 0

/-- All matches of the link regex on a line. -/
def findLinks (s : List Char) : List LinkMatch :=
  findLinksFrom s 0

/-- Skipping `cs.length - rest.length` characters of `cs` resumes the scan
exactly at the matcher's rest, so `findLinksFrom` faithfully restarts
`re.finditer` at the end of each match. -/
theorem findLinksFrom_skip_drop (c : Char) (cs : List Char) (m : LinkMatch)
    (rest : List Char) (h : linkMatchAt (c :: cs) = some (m, rest)) :
    cs.drop (cs.length - rest.length) = rest :=
  (List.suffix_iff_eq_drop.mp (linkMatchAt_rest_suffix c cs m rest h)).symm

/-- Try to match the image regex `!\[([^\]]*)\]\(([^)]+)\)` at the head of
`s`; the alt group may be empty.  Returns the alt group and the remaining
input. -/
def imgMatchAt (s : List Char) : Option (List Char × List Char) :=
  match s with
  | '!' :: '[' :: s1 =>
    let alt := s1.takeWhile (fun c => !(c = ']'))
    match s1.dropWhile (fun c => !(c = ']')) with
    | ']' :: '(' :: s3 =>
      let src := s3.takeWhile (fun c => !(c = ')'))
      if src.isEmpty then none
      else
        match s3.dropWhile (fun c => !(c = ')')) with
        | ')' :: rest => some (alt, rest)
        | _ => none
    | _ => none
  | _ => none

/-- Like `linkMatchAt_rest_suffix`, for the image matcher. -/
theorem imgMatchAt_rest_suffix (c : Char) (cs : List Char) (alt : List Char)
    (rest : List Char) (h : imgMatchAt (c :: cs) = some (alt, rest)) :
    rest <:+ cs := by
  unfold imgMatchAt at h
  split at h
  · split at h
    · dsimp only at h
      split at h
      · exact absurd h (by simp)
      · split at h
        · rename_i s1 hpat x1 s3 heq hsrc x2 rest2 heq2
          have hr : rest2 = rest := by
            simp only [Option.some.injEq, Prod.mk.injEq] at h
            exact h.2
          subst hr
          injection hpat with hc hcs
          have hcs2 : '[' :: s1 <:+ cs := by rw [hcs]
          have h1 : rest2 <:+ s3 := by
            have : ')' :: rest2 <:+ s3 := heq2 ▸ List.dropWhile_suffix _
            exact List.IsSuffix.trans (List.suffix_cons ')' rest2) this
          have h2 : s3 <:+ s1 := by
            have h3 : ']' :: '(' :: s3 <:+ s1 := heq ▸ List.dropWhile_suffix _
            exact List.IsSuffix.trans
              (List.IsSuffix.trans (List.suffix_cons '(' s3)
                (List.suffix_cons ']' ('(' :: s3))) h3
          exact List.IsSuffix.trans
            (List.IsSuffix.trans (List.IsSuffix.trans h1 h2)
              (List.suffix_cons '[' s1)) hcs2
        · exact absurd h (by simp)
    · exact absurd h (by simp)
  · exact absurd h (by simp)

/-- Python `re.finditer(img_pattern, line)`, with the same resume-after-
match scheme as `findLinksFrom`. -/
def findImgsFrom : List Char → Nat → List (List Char)
  | [], _ => []
  | _ :: cs, skip + 1 => findImgsFrom cs skip
  | c :: cs, 0 =>
    match imgMatchAt (c :: cs) with
    | some (alt, rest) => alt :: findImgsFrom cs (cs.length - rest.length)
    | none => findImgsFrom cs 0

/-- All alt groups of image-regex matches on a line. -/
def findImgs (s : List Char) : List (List Char) :=
  findImgsFrom s 0

/-- The skip count of `findImgsFrom` resumes exactly at the matcher's
rest. -/
theorem findImgsFrom_skip_drop (c : Char) (cs : List Char) (alt : List Char)
    (rest : List Char) (h : imgMatchAt (c :: cs) = some (alt, rest)) :
    cs.drop (cs.length - rest.length) = rest :=
  (List.suffix_iff_eq_drop.mp (imgMatchAt_rest_suffix c cs alt rest h)).symm

/-- Message of rule 1 (`f"Consider adding blank line after header at line {i}"`). -/
def headerMsg (i : Nat) : String :=
  "Consider adding blank line after header at line " ++ toString i

/-- Message of rule 2 (`f"Invalid heading level {level} at line {i} (max is 6)"`). -/
def headingLevelMsg (level i : Nat) : String :=
  "Invalid heading level " ++ toString level ++ " at line " ++ toString i
    ++ " (max is 6)"

/-- Message of rule 3 (`f"Empty link URL at line {i}: {match.group(0)}"`). -/
def emptyLinkMsg (i : Nat) (g0 : List Char) : String :=
  "Empty link URL at line " ++ toString i ++ ": " ++ String.mk g0

/-- Message of rule 4 (`f"Image without alt text at line {i} (accessibility issue)"`). -/
def imgAltMsg (i : Nat) : String :=
  "Image without alt text at line " ++ toString i ++ " (accessibility issue)"

/-- Message of rule 5 (`f"Table row at line {i} should start with |"`). -/
def tableRowMsg (i : Nat) : String :=
  "Table row at line " ++ toString i ++ " should start with |"

/-- Message of rule 6 (`f"Consider adding blank line after code block at line {i}"`). -/
def codeBlockMsg (i : Nat) : String :=
  "Consider adding blank line after code block at line " ++ toString i

/-- Rule 1, headers without a blank line after: on 1-based line `i`,
`if i < len(lines) and line.startswith('#')`, then with
`next_line = lines[i]`, `if next_line and not next_line.strip() == ""
and not next_line.startswith('#')`, append a warning at `i + 1`. -/
def rule1 (lines : List Line) (i : Nat) (line : Line) : List LintIssue :=
  if i < lines.length ∧ startsWithSeq ['#'] line then
    let next := lines.getD i []
    if ¬ next.isEmpty ∧ ¬ (pyStrip next).isEmpty ∧ ¬ startsWithSeq ['#'] next then
      [⟨i + 1, Severity.warning, headerMsg i⟩]
    else []
  else []

/-- Rule 2, invalid heading depth: `if line.startswith('#') and i > 3`,
with `level = len(line) - len(line.lstrip('#'))` the count of leading
`#`, `if level > 6` append an error at `i`. -/
def rule2 (i : Nat) (line : Line) : List LintIssue :=
  if startsWithSeq ['#'] line ∧ 3 < i then
    let level := (line.takeWhile (fun c => c = '#')).length
    if 6 < level then
      [⟨i, Severity.error, headingLevelMsg level i⟩]
    else []
  else []

/-- Rule 3, empty link URL: for every match of the link regex on the
line, `if url.strip() == ""` append an error at `i` quoting `group(0)`. -/
def rule3 (i : Nat) (line : Line) : List LintIssue :=
  (findLinks line).filterMap fun m =>
    if (pyStrip m.url).isEmpty then
      some ⟨i, Severity.error, emptyLinkMsg i m.g0⟩
    else none

/-- Rule 4, image without alt text: for every match of the image regex on
the line, `if not alt_text or alt_text.strip() == ""` append a warning at
`i`. -/
def rule4 (i : Nat) (line : Line) : List LintIssue :=
  (findImgs line).filterMap fun alt =>
    if alt.isEmpty ∨ (pyStrip alt).isEmpty then
      some ⟨i, Severity.warning, imgAltMsg i⟩
    else none

/-- Rule 5, table row not starting with `|`:
`if '|' in line and not line.strip().startswith('|')`, then
`if (i > 1 and '|' in lines[i-2]) if i > 1 else False` append a warning
at `i`. -/
def rule5 (lines : List Line) (i : Nat) (line : Line) : List LintIssue :=
  if line.contains '|' ∧ ¬ startsWithSeq ['|'] (pyStrip line) then
    if 1 < i ∧ (lines.getD (i - 2) []).contains '|' then
      [⟨i, Severity.warning, tableRowMsg i⟩]
    else []
  else []

/-- One iteration of the first `for i, line in enumerate(lines, 1)` loop:
the five checks run in the order they appear in the source. -/
def pass1Line (lines : List Line) (i : Nat) (line : Line) : List LintIssue :=
  rule1 lines i line ++ rule2 i line ++ rule3 i line
    ++ rule4 i line ++ rule5 lines i line

/-- The first pass of `_lint_markdown`: rules 1-5 over all lines. -/
def pass1 (lines : List Line) : List LintIssue :=
  ((lines.enumFrom 1).map fun p => pass1Line lines p.1 p.2).flatten

/-- Whether a line toggles the code-fence flag:
`line.strip().startswith('```')`. -/
def isFence (line : Line) : Bool :=
  startsWithSeq [backtick, backtick, backtick] (pyStrip line)

/-- The second `for i, line in enumerate(lines, 1)` loop, carried state
`in_code_block`: a fence line toggles the flag, and on the transition to
`not in_code_block` with `i < len(lines)` and a non-blank next line, a
warning is appended at `i + 1`. -/
def pass2Aux (lines : List Line) : Bool → List (Nat × Line) → List LintIssue
  | _, [] => []
  | inBlock, (i, line) :: rest =>
    if isFence line then
      let inBlock' := !inBlock
      (if inBlock' = false ∧ i < lines.length then
        let next := lines.getD i []
        if ¬ next.isEmpty ∧ ¬ (pyStrip next).isEmpty then
          [⟨i + 1, Severity.warning, codeBlockMsg i⟩]
        else []
      else []) ++ pass2Aux lines inBlock' rest
    else pass2Aux lines inBlock rest

/-- The second pass of `_lint_markdown`: rule 6 (blank line after code
blocks), starting with `in_code_block = False`. -/
def pass2 (lines : List Line) : List LintIssue :=
  pass2Aux lines false (lines.enumFrom 1)

/-- One step of the `in_code_block` state of the second pass: a fence
line toggles the flag. -/
def fenceStep (b : Bool) (line : Line) : Bool :=
  if isFence line then !b else b

/-- The `in_code_block` flag after the second pass has processed the
first `j` lines: it starts `False` and is toggled by every fence line. -/
def fenceFlag (lines : List Line) (j : Nat) : Bool :=
  (lines.take j).foldl fenceStep false

/-- The issue list computed by `_lint_markdown` for a given text:
`lines = text.split('\n')`, the rules-1-5 pass, then the rule-6 pass. -/
def lint (text : String) : List LintIssue :=
  let lines := splitLines text.data
  pass1 lines ++ pass2 lines

/-- Number of lines of the text, `len(text.split('\n'))`. -/
def numLines (text : String) : Nat :=
  (splitLines text.data).length

/-- The per-editor report store after `self.lint_issues[editor_id] = issues`:
the entry for `editorId` is replaced by the fresh report, all other
entries are unchanged. -/
def storeAfterLint (store : String → Option (List LintIssue))
    (editorId : String) (text : String) : String → Option (List LintIssue) :=
  fun d => if d = editorId then some (lint text) else store d

/-! ### Supporting lemmas: membership in the report -/

theorem mem_pass1_of_mem_line (lines : List Line) (i : Nat) (line : Line)
    (hmem : (i, line) ∈ lines.enumFrom 1) (iss : LintIssue)
    (hiss : iss ∈ pass1Line lines i line) : iss ∈ pass1 lines := by
  unfold pass1
  rw [List.mem_flatten]
  exact ⟨pass1Line lines i line,
    List.mem_map_of_mem (fun p => pass1Line lines p.1 p.2) hmem, hiss⟩

theorem mem_lint_of_pass1 (text : String) (iss : LintIssue)
    (h : iss ∈ pass1 (splitLines text.data)) : iss ∈ lint text :=
  List.mem_append_left _ h

theorem mem_lint_of_pass2 (text : String) (iss : LintIssue)
    (h : iss ∈ pass2 (splitLines text.data)) : iss ∈ lint text :=
  List.mem_append_right _ h

theorem mem_pass1Line_of_rule1 (lines : List Line) (i : Nat) (line : Line)
    (iss : LintIssue) (h : iss ∈ rule1 lines i line) :
    iss ∈ pass1Line lines i line := by
  unfold pass1Line
  simp only [List.mem_append]
  tauto

theorem mem_pass1Line_of_rule2 (lines : List Line) (i : Nat) (line : Line)
    (iss : LintIssue) (h : iss ∈ rule2 i line) :
    iss ∈ pass1Line lines i line := by
  unfold pass1Line
  simp only [List.mem_append]
  tauto

theorem mem_pass1Line_of_rule3 (lines : List Line) (i : Nat) (line : Line)
    (iss : LintIssue) (h : iss ∈ rule3 i line) :
    iss ∈ pass1Line lines i line := by
  unfold pass1Line
  simp only [List.mem_append]
  tauto

theorem mem_pass1Line_of_rule5 (lines : List Line) (i : Nat) (line : Line)
    (iss : LintIssue) (h : iss ∈ rule5 lines i line) :
    iss ∈ pass1Line lines i line := by
  unfold pass1Line
  simp only [List.mem_append]
  tauto

/-! ### Supporting lemmas: the shape of each rule's findings -/

theorem rule1_shape (lines : List Line) (i : Nat) (line : Line)
    (iss : LintIssue) (h : iss ∈ rule1 lines i line) :
    iss = ⟨i + 1, Severity.warning, headerMsg i⟩ ∧ i < lines.length := by
  unfold rule1 at h
  split at h
  · dsimp only at h
    split at h
    · rename_i hc hc2
      simp only [List.mem_singleton] at h
      exact ⟨h, hc.1⟩
    · simp at h
  · simp at h

theorem rule2_shape (i : Nat) (line : Line) (iss : LintIssue)
    (h : iss ∈ rule2 i line) :
    (∃ level, iss = ⟨i, Severity.error, headingLevelMsg level i⟩) ∧ 3 < i := by
  unfold rule2 at h
  split at h
  · dsimp only at h
    split at h
    · rename_i hc hc2
      simp only [List.mem_singleton] at h
      exact ⟨⟨_, h⟩, hc.2⟩
    · simp at h
  · simp at h

theorem rule3_shape (i : Nat) (line : Line) (iss : LintIssue)
    (h : iss ∈ rule3 i line) :
    ∃ g0, iss = ⟨i, Severity.error, emptyLinkMsg i g0⟩ := by
  unfold rule3 at h
  rw [List.mem_filterMap] at h
  obtain ⟨m, hm, hsome⟩ := h
  split at hsome
  · exact ⟨m.g0, (Option.some.injEq _ _ ▸ hsome).symm⟩
  · simp at hsome

theorem rule4_shape (i : Nat) (line : Line) (iss : LintIssue)
    (h : iss ∈ rule4 i line) :
    iss = ⟨i, Severity.warning, imgAltMsg i⟩ := by
  unfold rule4 at h
  rw [List.mem_filterMap] at h
  obtain ⟨alt, halt, hsome⟩ := h
  split at hsome
  · exact (Option.some.injEq _ _ ▸ hsome).symm
  · simp at hsome

theorem rule5_shape (lines : List Line) (i : Nat) (line : Line)
    (iss : LintIssue) (h : iss ∈ rule5 lines i line) :
    iss = ⟨i, Severity.warning, tableRowMsg i⟩ := by
  unfold rule5 at h
  split at h
  · split at h
    · simp only [List.mem_singleton] at h
      exact h
    · simp at h
  · simp at h

theorem pass1Line_shape (lines : List Line) (i : Nat) (line : Line)
    (iss : LintIssue) (h : iss ∈ pass1Line lines i line) :
    (iss = ⟨i + 1, Severity.warning, headerMsg i⟩ ∧ i < lines.length)
    ∨ ((∃ level, iss = ⟨i, Severity.error, headingLevelMsg level i⟩) ∧ 3 < i)
    ∨ (∃ g0, iss = ⟨i, Severity.error, emptyLinkMsg i g0⟩)
    ∨ iss = ⟨i, Severity.warning, imgAltMsg i⟩
    ∨ iss = ⟨i, Severity.warning, tableRowMsg i⟩ := by
  unfold pass1Line at h
  simp only [List.mem_append] at h
  rcases h with ((((h | h) | h) | h) | h)
  · exact Or.inl (rule1_shape lines i line iss h)
  · exact Or.inr (Or.inl (rule2_shape i line iss h))
  · exact Or.inr (Or.inr (Or.inl (rule3_shape i line iss h)))
  · exact Or.inr (Or.inr (Or.inr (Or.inl (rule4_shape i line iss h))))
  · exact Or.inr (Or.inr (Or.inr (Or.inr (rule5_shape lines i line iss h))))

/-! ### Supporting lemmas: the second pass -/

theorem pass2Aux_shape (lines : List Line) :
    ∀ (l : List (Nat × Line)) (b : Bool) (iss : LintIssue),
      iss ∈ pass2Aux lines b l →
      ∃ p ∈ l, iss = ⟨p.1 + 1, Severity.warning, codeBlockMsg p.1⟩
        ∧ p.1 < lines.length
        ∧ ¬ (lines.getD p.1 []).isEmpty = true
        ∧ ¬ (pyStrip (lines.getD p.1 [])).isEmpty = true := by
  intro l
  induction l with
  | nil =>
    intro b iss h
    simp [pass2Aux] at h
  | cons p rest ih =>
    intro b iss h
    obtain ⟨i, line⟩ := p
    unfold pass2Aux at h
    split at h
    · rw [List.mem_append] at h
      rcases h with h | h
      · split at h
        · dsimp only at h
          split at h
          · rename_i hcond hnext
            simp only [List.mem_singleton] at h
            exact ⟨(i, line), List.mem_cons_self _ _, h, hcond.2, hnext.1, hnext.2⟩
          · simp at h
        · simp at h
      · obtain ⟨q, hq, hrest⟩ := ih _ iss h
        exact ⟨q, List.mem_cons_of_mem _ hq, hrest⟩
    · obtain ⟨q, hq, hrest⟩ := ih _ iss h
      exact ⟨q, List.mem_cons_of_mem _ hq, hrest⟩

theorem enumFrom_pairwise {α : Type} : ∀ (l : List α) (k : Nat),
    List.Pairwise (fun p q => p.1 < q.1) (l.enumFrom k) := by
  intro l
  induction l with
  | nil => intro k; simp
  | cons a as ih =>
    intro k
    rw [show (a :: as).enumFrom k = (k, a) :: as.enumFrom (k + 1) from rfl,
      List.pairwise_cons]
    constructor
    · intro q hq
      obtain ⟨qi, qa⟩ := q
      have h1 := (List.mk_mem_enumFrom_iff_le_and_getElem?_sub.mp hq).1
      simpa using Nat.lt_of_succ_le h1
    · exact ih (k + 1)

theorem mem_enumFrom_le_length {α : Type} (l : List α) (k i : Nat) (a : α)
    (h : (i, a) ∈ l.enumFrom k) : k ≤ i ∧ i < k + l.length := by
  obtain ⟨h1, h2⟩ := List.mk_mem_enumFrom_iff_le_and_getElem?_sub.mp h
  rw [List.getElem?_eq_some] at h2
  obtain ⟨hlt, -⟩ := h2
  exact ⟨h1, by omega⟩

theorem pass2Aux_pairwise (lines : List Line) :
    ∀ (l : List (Nat × Line)) (b : Bool),
      List.Pairwise (fun p q => p.1 < q.1) l →
      (pass2Aux lines b l).Pairwise (fun a a' => a.line ≤ a'.line) := by
  intro l
  induction l with
  | nil =>
    intro b hp
    simp [pass2Aux]
  | cons p rest ih =>
    intro b hp
    obtain ⟨i, line⟩ := p
    rw [List.pairwise_cons] at hp
    unfold pass2Aux
    split
    · rw [List.pairwise_append]
      refine ⟨?_, ih _ hp.2, ?_⟩
      · split
        · dsimp only
          split
          · simp
          · simp
        · simp
      · intro a ha a' ha'
        have ha2 : a = ⟨i + 1, Severity.warning, codeBlockMsg i⟩ := by
          split at ha
          · dsimp only at ha
            split at ha
            · simpa using ha
            · simp at ha
          · simp at ha
        obtain ⟨q, hq, hshape, -⟩ := pass2Aux_shape lines rest _ a' ha'
        have hlt : i < q.1 := hp.1 q hq
        rw [ha2, hshape]
        simp only [LintIssue.mk.injEq]
        omega
    · exact ih _ hp.2

theorem pass2_pairwise (lines : List Line) :
    (pass2 lines).Pairwise (fun a a' => a.line ≤ a'.line) :=
  pass2Aux_pairwise lines _ false (enumFrom_pairwise lines 1)

theorem pass2_shape (lines : List Line) (iss : LintIssue)
    (h : iss ∈ pass2 lines) :
    ∃ i, 1 ≤ i ∧ i < lines.length
      ∧ iss = ⟨i + 1, Severity.warning, codeBlockMsg i⟩
      ∧ ¬ (lines.getD i []).isEmpty = true
      ∧ ¬ (pyStrip (lines.getD i [])).isEmpty = true := by
  obtain ⟨p, hp, hshape, hlt, hne, hne2⟩ := pass2Aux_shape lines _ false iss h
  obtain ⟨i, line⟩ := p
  obtain ⟨h1, -⟩ := mem_enumFrom_le_length lines 1 i line hp
  exact ⟨i, h1, hlt, hshape, hne, hne2⟩

theorem pass2Aux_emits (lines : List Line) :
    ∀ (l : List Line) (k : Nat) (b : Bool) (j : Nat), j < l.length →
      isFence (l.getD j []) = true →
      (l.take (j + 1)).foldl fenceStep b = false →
      k + j < lines.length →
      ¬ (lines.getD (k + j) []).isEmpty = true →
      ¬ (pyStrip (lines.getD (k + j) [])).isEmpty = true →
      (⟨k + j + 1, Severity.warning, codeBlockMsg (k + j)⟩ : LintIssue)
        ∈ pass2Aux lines b (l.enumFrom k) := by
  intro l
  induction l with
  | nil =>
    intro k b j hj
    simp at hj
  | cons a as ih =>
    intro k b j hj hfence hflag hlt hne hne2
    cases j with
    | zero =>
      rw [List.getD_cons_zero] at hfence
      rw [List.take_succ_cons, List.take_zero, List.foldl_cons, List.foldl_nil] at hflag
      unfold fenceStep at hflag
      rw [if_pos hfence] at hflag
      show _ ∈ pass2Aux lines b ((k, a) :: as.enumFrom (k + 1))
      unfold pass2Aux
      rw [if_pos hfence]
      dsimp only
      apply List.mem_append_left
      rw [if_pos ⟨hflag, by simpa using hlt⟩]
      rw [if_pos ⟨by simpa using hne, by simpa using hne2⟩]
      simp
    | succ j' =>
      have harith : k + (j' + 1) = (k + 1) + j' := by omega
      rw [harith] at hlt hne hne2 ⊢
      rw [List.getD_cons_succ] at hfence
      rw [List.take_succ_cons, List.foldl_cons] at hflag
      have hj' : j' < as.length := by simpa using hj
      have H := ih (k + 1) (fenceStep b a) j' hj' hfence hflag hlt hne hne2
      show _ ∈ pass2Aux lines b ((k, a) :: as.enumFrom (k + 1))
      unfold pass2Aux
      by_cases ha : isFence a = true
      · rw [if_pos ha]
        dsimp only
        apply List.mem_append_right
        have hb : fenceStep b a = !b := by unfold fenceStep; rw [if_pos ha]
        rw [hb] at H
        exact H
      · rw [if_neg ha]
        have hb : fenceStep b a = b := by unfold fenceStep; rw [if_neg ha]
        rw [hb] at H
        exact H

/-! ### Supporting lemmas: line-number bounds and message shapes -/

theorem pass1_bounds (lines : List Line) (iss : LintIssue)
    (h : iss ∈ pass1 lines) : 1 ≤ iss.line ∧ iss.line ≤ lines.length := by
  unfold pass1 at h
  rw [List.mem_flatten] at h
  obtain ⟨seg, hseg, hiss⟩ := h
  rw [List.mem_map] at hseg
  obtain ⟨p, hp, rfl⟩ := hseg
  obtain ⟨i, line⟩ := p
  obtain ⟨h1, h2⟩ := mem_enumFrom_le_length lines 1 i line hp
  have hline : iss.line = i + 1 ∧ i < lines.length ∨ iss.line = i := by
    rcases pass1Line_shape lines i line iss hiss with
      ⟨heq, hlt⟩ | ⟨⟨lvl, heq⟩, -⟩ | ⟨g0, heq⟩ | heq | heq
    · exact Or.inl ⟨by rw [heq], hlt⟩
    · exact Or.inr (by rw [heq])
    · exact Or.inr (by rw [heq])
    · exact Or.inr (by rw [heq])
    · exact Or.inr (by rw [heq])
  rcases hline with ⟨he, hl⟩ | he <;> omega

theorem pass2_bounds (lines : List Line) (iss : LintIssue)
    (h : iss ∈ pass2 lines) : 1 ≤ iss.line ∧ iss.line ≤ lines.length := by
  obtain ⟨i, h1, hlt, heq, -, -⟩ := pass2_shape lines iss h
  rw [heq]
  simp only
  omega

theorem lint_bounds (text : String) (iss : LintIssue) (h : iss ∈ lint text) :
    1 ≤ iss.line ∧ iss.line ≤ numLines text := by
  unfold lint at h
  rw [List.mem_append] at h
  unfold numLines
  rcases h with h | h
  · exact pass1_bounds _ iss h
  · exact pass2_bounds _ iss h

theorem ne_of_data_getD (s t : String) (k : Nat)
    (h : s.data.getD k ' ' ≠ t.data.getD k ' ') : s ≠ t :=
  fun he => h (by rw [he])

theorem headerMsg_ne_codeBlockMsg (i j : Nat) : headerMsg i ≠ codeBlockMsg j := by
  apply ne_of_data_getD _ _ 33
  unfold headerMsg codeBlockMsg
  simp only [String.data_append, List.append_assoc]
  rw [List.getD_append _ _ _ _ (by decide), List.getD_append _ _ _ _ (by decide)]
  decide

theorem imgAltMsg_ne_codeBlockMsg (i j : Nat) : imgAltMsg i ≠ codeBlockMsg j := by
  apply ne_of_data_getD _ _ 0
  unfold imgAltMsg codeBlockMsg
  simp only [String.data_append, List.append_assoc]
  rw [List.getD_append _ _ _ _ (by decide), List.getD_append _ _ _ _ (by decide)]
  decide

theorem tableRowMsg_ne_codeBlockMsg (i j : Nat) : tableRowMsg i ≠ codeBlockMsg j := by
  apply ne_of_data_getD _ _ 0
  unfold tableRowMsg codeBlockMsg
  simp only [String.data_append, List.append_assoc]
  rw [List.getD_append _ _ _ _ (by decide), List.getD_append _ _ _ _ (by decide)]
  decide

theorem emptyLinkMsg_ne_headingLevelMsg (i j lvl : Nat) (g0 : List Char) :
    emptyLinkMsg i g0 ≠ headingLevelMsg lvl j := by
  apply ne_of_data_getD _ _ 0
  unfold emptyLinkMsg headingLevelMsg
  simp only [String.data_append, List.append_assoc]
  rw [List.getD_append _ _ _ _ (by decide), List.getD_append _ _ _ _ (by decide)]
  decide

theorem headingLevel_not_in_lint (text : String) (i lvl : Nat) (hi : i ≤ 3) :
    (⟨i, Severity.error, headingLevelMsg lvl i⟩ : LintIssue) ∉ lint text := by
  intro h
  unfold lint at h
  rw [List.mem_append] at h
  rcases h with h | h
  · unfold pass1 at h
    rw [List.mem_flatten] at h
    obtain ⟨seg, hseg, hiss⟩ := h
    rw [List.mem_map] at hseg
    obtain ⟨p, hp, rfl⟩ := hseg
    obtain ⟨i2, line2⟩ := p
    rcases pass1Line_shape _ i2 line2 _ hiss with
      ⟨heq, -⟩ | ⟨⟨lvl2, heq⟩, hgt⟩ | ⟨g0, heq⟩ | heq | heq
    · simp at heq
    · simp only [LintIssue.mk.injEq] at heq
      omega
    · simp only [LintIssue.mk.injEq] at heq
      exact emptyLinkMsg_ne_headingLevelMsg i2 i lvl g0 heq.2.2.symm
    · simp at heq
    · simp at heq
  · obtain ⟨i2, -, -, heq, -, -⟩ := pass2_shape _ _ h
    simp at heq

theorem codeBlock_not_in_lint_of_blank (text : String) (j : Nat)
    (hblank : ((splitLines text.data).getD (j + 1) []).isEmpty = true
      ∨ (pyStrip ((splitLines text.data).getD (j + 1) [])).isEmpty = true) :
    (⟨j + 2, Severity.warning, codeBlockMsg (j + 1)⟩ : LintIssue) ∉ lint text := by
  intro h
  unfold lint at h
  rw [List.mem_append] at h
  rcases h with h | h
  · unfold pass1 at h
    rw [List.mem_flatten] at h
    obtain ⟨seg, hseg, hiss⟩ := h
    rw [List.mem_map] at hseg
    obtain ⟨p, hp, rfl⟩ := hseg
    obtain ⟨i2, line2⟩ := p
    rcases pass1Line_shape _ i2 line2 _ hiss with
      ⟨heq, -⟩ | ⟨⟨lvl2, heq⟩, -⟩ | ⟨g0, heq⟩ | heq | heq
    · simp only [LintIssue.mk.injEq] at heq
      exact headerMsg_ne_codeBlockMsg i2 (j + 1) heq.2.2.symm
    · simp at heq
    · simp at heq
    · simp only [LintIssue.mk.injEq] at heq
      exact imgAltMsg_ne_codeBlockMsg i2 (j + 1) heq.2.2.symm
    · simp only [LintIssue.mk.injEq] at heq
      exact tableRowMsg_ne_codeBlockMsg i2 (j + 1) heq.2.2.symm
  · obtain ⟨i2, -, -, heq, hne, hne2⟩ := pass2_shape _ _ h
    simp only [LintIssue.mk.injEq] at heq
    have hij : i2 = j + 1 := by omega
    subst hij
    rcases hblank with hb | hb
    · exact hne hb
    · exact hne2 hb

/-! ### The claims -/

/-- C1, counterexample: the claim says a link with an empty URL, as in the
single-line document "[broken]()", yields exactly one "Empty link URL"
error; in fact the link regex requires at least one character in the URL
group, so "[broken]()" matches nothing and the report is empty. -/
theorem claim1_counterexample : lint "[broken]()" = [] := by decide

/-- C1 (amended): for every document text, every line of that text, and
every inline match of the link pattern on that line - whose url group is
necessarily nonempty - if the url is whitespace-only (empty after
trimming), lint emits an error at that line quoting the full matched
text; a literally empty url as in "[broken]()" is not matched at all,
while "[broken]( )" yields exactly one such error. -/
theorem claim1_empty_link_url :
    (∀ (text : String) (i : Nat) (line : Line),
      (i, line) ∈ (splitLines text.data).enumFrom 1 →
      ∀ m : LinkMatch, m ∈ findLinks line →
      (pyStrip m.url).isEmpty = true →
      (⟨i, Severity.error, emptyLinkMsg i m.g0⟩ : LintIssue) ∈ lint text) ∧
    lint "[broken]( )" =
      [⟨1, Severity.error, emptyLinkMsg 1 ("[broken]( )".data)⟩] := by
  constructor
  · intro text i line hmem m hm hurl
    apply mem_lint_of_pass1
    apply mem_pass1_of_mem_line _ i line hmem
    apply mem_pass1Line_of_rule3
    unfold rule3
    rw [List.mem_filterMap]
    exact ⟨m, hm, by rw [if_pos hurl]⟩
  · decide

/-- C1, witness: the general part of `claim1_empty_link_url` applied to
the concrete document "[broken]( )". -/
theorem claim1_witness :
    (⟨1, Severity.error, emptyLinkMsg 1 ("[broken]( )".data)⟩ : LintIssue)
      ∈ lint "[broken]( )" :=
  claim1_empty_link_url.1 "[broken]( )" 1 ("[broken]( )".data) (by decide)
    ⟨"[broken]( )".data, "broken".data, [' ']⟩ (by decide) (by decide)

/-- C2, counterexample: the claim says the rules-1-5 segment of the
report is internally sorted by line number; on "# [x]( )\ntext" the first
pass alone produces lines [2, 1] (rule 1 reports at line+1 before rule 3
reports at the same line), so that segment is not in line order. -/
theorem claim2_counterexample :
    (lint "# [x]( )\ntext").map LintIssue.line = [2, 1] ∧
    pass2 (splitLines ("# [x]( )\ntext").data) = [] := by
  constructor
  · decide
  · decide

/-- C2 (amended): for every document text, the report is the findings of
rules 1-5 (one pass over all lines, rules in fixed order per line)
followed by the findings of rule 6 (a second, independent pass); the
rule-6 segment is internally in line order, but the rules-1-5 segment is
in discovery order, which can leave a rule-1 warning (reported at
line+1) ahead of a same-line finding of a later rule. -/
theorem claim2_report_ordering (text : String) :
    lint text = pass1 (splitLines text.data) ++ pass2 (splitLines text.data) ∧
    (pass2 (splitLines text.data)).Pairwise (fun a a' => a.line ≤ a'.line) :=
  ⟨rfl, pass2_pairwise _⟩

/-- C3: for every document text, every line beginning with '#' that is
not the last line, if the next line is non-blank and does not start with
'#', lint emits a warning at line+1 naming the header's own line;
"# Title\nSome text" yields exactly that one issue, and
"# Title\n\nSome text" yields no issue at all. -/
theorem claim3_header_blank_line :
    (∀ (text : String) (i : Nat) (line : Line),
      (i, line) ∈ (splitLines text.data).enumFrom 1 →
      i < (splitLines text.data).length →
      startsWithSeq ['#'] line = true →
      ¬ ((splitLines text.data).getD i []).isEmpty = true →
      ¬ (pyStrip ((splitLines text.data).getD i [])).isEmpty = true →
      ¬ startsWithSeq ['#'] ((splitLines text.data).getD i []) = true →
      (⟨i + 1, Severity.warning, headerMsg i⟩ : LintIssue) ∈ lint text) ∧
    lint "# Title\nSome text" = [⟨2, Severity.warning, headerMsg 1⟩] ∧
    lint "# Title\n\nSome text" = [] := by
  refine ⟨?_, by decide, by decide⟩
  intro text i line hmem hlt hhash h1 h2 h3
  apply mem_lint_of_pass1
  apply mem_pass1_of_mem_line _ i line hmem
  apply mem_pass1Line_of_rule1
  unfold rule1
  rw [if_pos ⟨hlt, hhash⟩]
  dsimp only
  rw [if_pos ⟨h1, h2, h3⟩]
  simp

/-- C3, witness: the general part of `claim3_header_blank_line` applied
to the concrete document "# Title\nSome text". -/
theorem claim3_witness :
    (⟨2, Severity.warning, headerMsg 1⟩ : LintIssue) ∈ lint "# Title\nSome text" :=
  claim3_header_blank_line.1 "# Title\nSome text" 1 ("# Title".data)
    (by decide) (by decide) (by decide) (by decide) (by decide) (by decide)

/-- C4: for every document text, a line beginning with '#' at 1-based
position > 3 whose count of leading '#' exceeds 6 produces an "Invalid
heading level" error at that line; at positions 1-3 no such error is ever
reported regardless of depth; and "#######  Too deep" as line 5 yields
exactly that one error, for heading level 7. -/
theorem claim4_heading_depth :
    (∀ (text : String) (i : Nat) (line : Line),
      (i, line) ∈ (splitLines text.data).enumFrom 1 →
      startsWithSeq ['#'] line = true →
      3 < i →
      6 < (line.takeWhile (fun c => c = '#')).length →
      (⟨i, Severity.error,
        headingLevelMsg (line.takeWhile (fun c => c = '#')).length i⟩ : LintIssue)
        ∈ lint text) ∧
    (∀ (text : String) (i lvl : Nat), i ≤ 3 →
      (⟨i, Severity.error, headingLevelMsg lvl i⟩ : LintIssue) ∉ lint text) ∧
    lint "\n\n\n\n#######  Too deep" =
      [⟨5, Severity.error, headingLevelMsg 7 5⟩] := by
  refine ⟨?_, headingLevel_not_in_lint, by decide⟩
  intro text i line hmem hhash hgt hlvl
  apply mem_lint_of_pass1
  apply mem_pass1_of_mem_line _ i line hmem
  apply mem_pass1Line_of_rule2
  unfold rule2
  rw [if_pos ⟨hhash, hgt⟩]
  dsimp only
  rw [if_pos hlvl]
  simp

/-- C4, witness: both general parts of `claim4_heading_depth` applied to
concrete documents. -/
theorem claim4_witness :
    (⟨5, Severity.error, headingLevelMsg 7 5⟩ : LintIssue)
      ∈ lint "\n\n\n\n#######  Too deep" ∧
    (⟨1, Severity.error, headingLevelMsg 7 1⟩ : LintIssue)
      ∉ lint "#######  Too deep" :=
  ⟨claim4_heading_depth.1 "\n\n\n\n#######  Too deep" 5 ("#######  Too deep".data)
      (by decide) (by decide) (by decide) (by decide),
   claim4_heading_depth.2.1 "#######  Too deep" 1 7 (by decide)⟩

/-- C6: the embedded linter is a total function of the input text: for
every input, including the empty string, text with an unterminated code
fence, and lines with unbalanced markup, it terminates with a (possibly
empty) report. -/
theorem claim6_lint_total :
    (∀ text : String, ∃ report : List LintIssue, lint text = report) ∧
    lint "" = [] ∧
    lint "```\nunterminated" = [] ∧
    lint "[unbalanced(" = [] :=
  ⟨fun text => ⟨lint text, rfl⟩, by decide, by decide, by decide⟩

/-- C7: lint is deterministic: any two invocations on the same text
produce identical reports, element-wise and in the same order. -/
theorem claim7_deterministic (t1 t2 : String) (h : t1 = t2) :
    lint t1 = lint t2 :=
  congrArg lint h

/-- C7, witness: `claim7_deterministic` at a concrete text. -/
theorem claim7_witness :
    lint "# Title\nSome text" = lint "# Title\nSome text" :=
  claim7_deterministic "# Title\nSome text" "# Title\nSome text" rfl

/-- C9: storing a fresh report replaces exactly the entry of the linted
document id: afterwards the store maps that id to the freshly computed
report, and every other id keeps its previous value. -/
theorem claim9_store_frame (store : String → Option (List LintIssue))
    (d text : String) :
    storeAfterLint store d text d = some (lint text) ∧
    ∀ d' : String, d' ≠ d → storeAfterLint store d text d' = store d' := by
  constructor
  · unfold storeAfterLint
    rw [if_pos rfl]
  · intro d' hne
    unfold storeAfterLint
    rw [if_neg hne]

/-- C9, witness: `claim9_store_frame` on a concrete store and ids. -/
theorem claim9_witness :
    storeAfterLint (fun _ => none) "doc1" "# Title" "doc1" = some (lint "# Title") ∧
    storeAfterLint (fun _ => none) "doc1" "# Title" "doc2" = none :=
  ⟨(claim9_store_frame (fun _ => none) "doc1" "# Title").1,
   (claim9_store_frame (fun _ => none) "doc1" "# Title").2 "doc2" (by decide)⟩

/-- C10: rules 1-5 are evaluated with no awareness of code-fence state:
in the four-line document "```"/"# Title"/"text"/"```" the header inside
the fence still triggers the header warning at line 3 naming line 2
(and nothing else is reported), and lines containing '|' inside a fence
still trigger the table-row warning. -/
theorem claim10_rules_ignore_fences :
    lint "```\n# Title\ntext\n```" = [⟨3, Severity.warning, headerMsg 2⟩] ∧
    lint "```\na|b\nc|d\n```" = [⟨3, Severity.warning, tableRowMsg 3⟩] := by
  constructor
  · decide
  · decide

/-- C5: tracking the flag that toggles on each line whose trimmed content
starts with three backticks, every inside-to-outside transition (closing
fence, 0-based index j, 1-based line j+1) that is not the last line and
is followed by a non-blank line yields a warning at line j+2 naming line
j+1; when the next line is blank no such warning is reported; and
"```\ncode\n```\nmore text" yields exactly one warning, at line 4
naming line 3, while with a blank line 4 nothing is reported. -/
theorem claim5_code_fence :
    (∀ (text : String) (j : Nat), j < numLines text →
      isFence ((splitLines text.data).getD j []) = true →
      fenceFlag (splitLines text.data) (j + 1) = false →
      j + 1 < numLines text →
      ¬ ((splitLines text.data).getD (j + 1) []).isEmpty = true →
      ¬ (pyStrip ((splitLines text.data).getD (j + 1) [])).isEmpty = true →
      (⟨j + 2, Severity.warning, codeBlockMsg (j + 1)⟩ : LintIssue) ∈ lint text) ∧
    (∀ (text : String) (j : Nat),
      ((splitLines text.data).getD (j + 1) []).isEmpty = true
        ∨ (pyStrip ((splitLines text.data).getD (j + 1) [])).isEmpty = true →
      (⟨j + 2, Severity.warning, codeBlockMsg (j + 1)⟩ : LintIssue) ∉ lint text) ∧
    lint "```\ncode\n```\nmore text" = [⟨4, Severity.warning, codeBlockMsg 3⟩] ∧
    lint "```\ncode\n```\n" = [] := by
  refine ⟨?_, codeBlock_not_in_lint_of_blank, by decide, by decide⟩
  intro text j hj hfence hflag hlt hne hne2
  apply mem_lint_of_pass2
  unfold pass2
  have hcomm : 1 + j = j + 1 := Nat.add_comm 1 j
  have H := pass2Aux_emits (splitLines text.data) (splitLines text.data) 1 false j
    (by unfold numLines at hj; exact hj) hfence
    (by unfold fenceFlag at hflag; exact hflag)
    (by rw [hcomm]; unfold numLines at hlt; exact hlt)
    (by rw [hcomm]; exact hne)
    (by rw [hcomm]; exact hne2)
  rw [hcomm] at H
  exact H

/-- C5, witness: both general parts of `claim5_code_fence` applied to
the concrete fenced documents. -/
theorem claim5_witness :
    (⟨4, Severity.warning, codeBlockMsg 3⟩ : LintIssue)
      ∈ lint "```\ncode\n```\nmore text" ∧
    (⟨4, Severity.warning, codeBlockMsg 3⟩ : LintIssue)
      ∉ lint "```\ncode\n```\n" :=
  ⟨claim5_code_fence.1 "```\ncode\n```\nmore text" 2 (by decide) (by decide)
      (by decide) (by decide) (by decide) (by decide),
   claim5_code_fence.2.1 "```\ncode\n```\n" 2 (Or.inl (by decide))⟩

/-- C8: every issue in the report has its line number in [1, n+1] where n
is the number of lines; in fact the bound n holds, so a next-line rule
(rule 1 or rule 6) whose trigger is the final line emits nothing at the
nonexistent line n+1; explicitly, rule 1 applied at the last line yields
no finding. -/
theorem claim8_line_bounds (text : String) :
    (∀ iss ∈ lint text, 1 ≤ iss.line ∧ iss.line ≤ numLines text + 1) ∧
    (∀ iss ∈ lint text, iss.line ≤ numLines text) ∧
    (∀ line : Line, rule1 (splitLines text.data) (numLines text) line = []) := by
  refine ⟨fun iss h => ?_, fun iss h => (lint_bounds text iss h).2, fun line => ?_⟩
  · obtain ⟨h1, h2⟩ := lint_bounds text iss h
    exact ⟨h1, by omega⟩
  · unfold rule1
    have hno : ¬ (numLines text < (splitLines text.data).length
        ∧ startsWithSeq ['#'] line = true) := by
      rintro ⟨hlt, -⟩
      unfold numLines at hlt
      omega
    rw [if_neg hno]

/-- C8, witness: `claim8_line_bounds` on a concrete document and issue. -/
theorem claim8_witness :
    (1 ≤ (⟨2, Severity.warning, headerMsg 1⟩ : LintIssue).line ∧
      (⟨2, Severity.warning, headerMsg 1⟩ : LintIssue).line
        ≤ numLines "# Title\nSome text" + 1) ∧
    (⟨2, Severity.warning, headerMsg 1⟩ : LintIssue).line
      ≤ numLines "# Title\nSome text" ∧
    rule1 (splitLines ("# Title\nSome text").data)
      (numLines "# Title\nSome text") ("# Last".data) = [] :=
  ⟨(claim8_line_bounds "# Title\nSome text").1
      ⟨2, Severity.warning, headerMsg 1⟩ (by decide),
   (claim8_line_bounds "# Title\nSome text").2.1
      ⟨2, Severity.warning, headerMsg 1⟩ (by decide),
   (claim8_line_bounds "# Title\nSome text").2.2 ("# Last".data)⟩

end ShebangMarkdownIDE
